import Mathlib

/-!
Verification of the FlowEx matching engine
(`src/backend/shared/matching-engine/src/lib.rs`).

The engine is embedded shallowly:
* `rust_decimal::Decimal` prices/quantities become `ℚ` (both are exact:
  addition, subtraction, `min` and comparisons incur no rounding);
* `Uuid` order ids become `ℕ`; timestamps and the randomly generated trade
  ids are omitted (no claim mentions them);
* `BTreeMap<Decimal, VecDeque<Order>>` becomes an association list ordered
  by ascending key — exactly the order in which `BTreeMap::keys()` iterates —
  whose queue heads model the `VecDeque` front;
* fallible functions return `Except FlowExError`.
-/

namespace FlowEx

/-- `flowex_types::OrderSide`. -/
inductive OrderSide
  | buy
  | sell
deriving DecidableEq, Repr

/-- `flowex_types::OrderType`. -/
inductive OrderType
  | market
  | limit
  | stopLoss
  | takeProfit
deriving DecidableEq, Repr

/-- `flowex_types::OrderStatus`. -/
inductive OrderStatus
  | new
  | partiallyFilled
  | filled
  | cancelled
  | rejected
  | expired
deriving DecidableEq, Repr

/-- `flowex_types::Order` as used by the matching engine (the engine reads and
writes a `remaining_quantity` field alongside `filled_quantity`; timestamps
and the user id are never read by the engine and are omitted). -/
structure Order where
  id : Nat
  trading_pair : String
  side : OrderSide
  order_type : OrderType
  price : Option ℚ
  quantity : ℚ
  filled_quantity : ℚ
  remaining_quantity : ℚ
  status : OrderStatus
deriving DecidableEq, Repr

/-- `flowex_types::Trade` (the random `id` and the `timestamp` are omitted;
`create_trade` fills the remaining four fields). -/
structure Trade where
  symbol : String
  price : ℚ
  quantity : ℚ
  side : OrderSide
deriving DecidableEq, Repr

/-- The two `flowex_types::FlowExError` variants the matching engine can
produce: `Validation` from `validate_order` and `Trading` from
`execute_limit_order` / `add_to_order_book`. -/
inductive FlowExError
  | validation (msg : String)
  | trading (msg : String)
deriving DecidableEq, Repr

/-- One side of the book: `BTreeMap<Decimal, VecDeque<Order>>`, modelled as an
association list sorted by ascending price (the order `BTreeMap` iterates in);
each queue's head is the `VecDeque` front. -/
abbrev Book := List (ℚ × List Order)

namespace Book

/-- `BTreeMap::keys()` — ascending key order. -/
def keys (b : Book) : List ℚ := b.map Prod.fst

/-- `BTreeMap::get` / `get_mut` (lookup only; mutation is modelled by `set`). -/
def find? : Book → ℚ → Option (List Order)
  | [], _ => none
  | (q, l) :: rest, p => if p = q then some l else find? rest p

/-- Writing back the queue obtained from `get_mut` after in-place mutation. -/
def set : Book → ℚ → List Order → Book
  | [], _, _ => []
  | (q, l) :: rest, p, l' => if p = q then (q, l') :: rest else (q, l) :: set rest p l'

/-- `BTreeMap::remove`. -/
def erase : Book → ℚ → Book
  | [], _ => []
  | (q, l) :: rest, p => if p = q then rest else (q, l) :: erase rest p

/-- `order_book.entry(price).or_insert_with(VecDeque::new).push_back(order)`:
append to the queue at `price`, creating the level (at its sorted position,
as a `BTreeMap` insertion does) when absent. -/
def insert : Book → ℚ → Order → Book
  | [], p, o => [(p, [o])]
  | (q, l) :: rest, p, o =>
    if p < q then (p, [o]) :: (q, l) :: rest
    else if p = q then (q, l ++ [o]) :: rest
    else (q, l) :: insert rest p o

end Book

/-- The `MatchingEngine` struct (lib.rs:19). -/
structure MatchingEngine where
  symbol : String
  buy_orders : Book
  sell_orders : Book
  last_trade_price : Option ℚ
  total_volume : ℚ
deriving DecidableEq, Repr

/-- `MatchingEngine::new` (lib.rs:29). -/
def MatchingEngine.new (symbol : String) : MatchingEngine :=
  { symbol := symbol
    buy_orders := []
    sell_orders := []
    last_trade_price := none
    total_volume := 0 }

/-- The `Trade` value built by `create_trade` (lib.rs:313): symbol from the
engine, the given execution price and quantity, and the taker's side.  (The
buyer/seller order ids it computes are never stored anywhere.) -/
def mkTrade (symbol : String) (takerSide : OrderSide) (price quantity : ℚ) : Trade :=
  { symbol := symbol, price := price, quantity := quantity, side := takerSide }

/-- `create_trade` also mutates the engine: `last_trade_price = Some(price)`
and `total_volume += quantity`, once per emitted trade, in emission order.
The matching loops never read these two scalars, so folding the updates over
the emitted trade list after the sweep yields the same final engine. -/
def applyTrades (e : MatchingEngine) (ts : List Trade) : MatchingEngine :=
  ts.foldl
    (fun e t =>
      { e with last_trade_price := some t.price, total_volume := e.total_volume + t.quantity })
    e

/-- The update applied to a counter order that still has remaining quantity
after a fill (lib.rs:263, 264, 270): decrement `remaining_quantity`,
increment `filled_quantity`, mark `PartiallyFilled`; the updated order is
then pushed back to the front of its level's queue (lib.rs:271). -/
def requeueFill (o : Order) (tq : ℚ) : Order :=
  { o with
    remaining_quantity := o.remaining_quantity - tq
    filled_quantity := o.filled_quantity + tq
    status := OrderStatus.partiallyFilled }

/-- The inner `while let Some(mut counter_order) = orders_at_price.pop_front()`
loop, verbatim identical in `execute_market_order` (lib.rs:168-193) and
`execute_limit_order` (lib.rs:248-273).  Arguments: the engine symbol, the
taker's side (all the loop reads from the taker), the level's price, the
level's queue and the taker's current remaining quantity.  Returns the trades
emitted at this level, the updated remaining quantity and the final queue.

When the popped counter order is only partially filled, the source pushes it
back to the front and iterates once more on the same queue; that iteration
necessarily finds `remaining ≤ 0` and just pops, re-pushes and breaks (the
counter was left partial exactly because the taker's remainder ran out), so
this definition folds that no-op iteration into the push-back case.  The
theorem `consumeQueue_requeue` below proves that the definition satisfies the
source loop's own recurrence in that case, so the two shapes agree exactly. -/
def consumeQueue (symbol : String) (takerSide : OrderSide) (levelPrice : ℚ) :
    List Order → ℚ → List Trade × ℚ × List Order
  | [], rem => ([], rem, [])
  | c :: rest, rem =>
    if rem ≤ 0 then
      ([], rem, c :: rest)
    else if c.remaining_quantity - min rem c.remaining_quantity ≤ 0 then
      let res := consumeQueue symbol takerSide levelPrice rest
        (rem - min rem c.remaining_quantity)
      (mkTrade symbol takerSide (c.price.getD levelPrice) (min rem c.remaining_quantity)
          :: res.1,
        res.2.1, res.2.2)
    else
      ([mkTrade symbol takerSide (c.price.getD levelPrice) (min rem c.remaining_quantity)],
        rem - min rem c.remaining_quantity,
        requeueFill c (min rem c.remaining_quantity) :: rest)

/-- The `for price in price_levels` loop of `execute_market_order`
(lib.rs:162-200) over the pre-collected key list: break once the taker's
remainder is exhausted, otherwise consume the level's queue, write the queue
back — removing the level if its queue emptied — and continue. -/
def marketLoop (symbol : String) (takerSide : OrderSide) :
    List ℚ → Book → ℚ → List Trade × ℚ × Book
  | [], book, rem => ([], rem, book)
  | p :: ps, book, rem =>
    if rem ≤ 0 then ([], rem, book)
    else
      match book.find? p with
      | none => marketLoop symbol takerSide ps book rem
      | some q =>
        let res := consumeQueue symbol takerSide p q rem
        let book' := if res.2.2.isEmpty then book.erase p else book.set p res.2.2
        let rest := marketLoop symbol takerSide ps book' res.2.1
        (res.1 ++ rest.1, rest.2.1, rest.2.2)

/-- The `can_match` test of `execute_limit_order` (lib.rs:238-241): a Buy
matches a level at or below its limit price, a Sell at or above. -/
def canMatch (takerSide : OrderSide) (order_price p : ℚ) : Bool :=
  match takerSide with
  | OrderSide.buy => decide (p ≤ order_price)
  | OrderSide.sell => decide (order_price ≤ p)

/-- The `for price in price_levels` loop of `execute_limit_order`
(lib.rs:232-280): identical to `marketLoop` except that a level failing
`can_match` is skipped (`continue`). -/
def limitLoop (symbol : String) (takerSide : OrderSide) (order_price : ℚ) :
    List ℚ → Book → ℚ → List Trade × ℚ × Book
  | [], book, rem => ([], rem, book)
  | p :: ps, book, rem =>
    if rem ≤ 0 then ([], rem, book)
    else if canMatch takerSide order_price p then
      match book.find? p with
      | none => limitLoop symbol takerSide order_price ps book rem
      | some q =>
        let res := consumeQueue symbol takerSide p q rem
        let book' := if res.2.2.isEmpty then book.erase p else book.set p res.2.2
        let rest := limitLoop symbol takerSide order_price ps book' res.2.1
        (res.1 ++ rest.1, rest.2.1, rest.2.2)
    else limitLoop symbol takerSide order_price ps book rem

/-- The update both execute functions apply to the incoming order after the
sweep (lib.rs:202-210 and 282-290): `filled_quantity = quantity - remaining`,
`remaining_quantity = remaining`, status Filled when nothing remains,
PartiallyFilled when something was filled, otherwise unchanged. -/
def finishTaker (order : Order) (rem : ℚ) : Order :=
  { order with
    filled_quantity := order.quantity - rem
    remaining_quantity := rem
    status :=
      if rem ≤ 0 then OrderStatus.filled
      else if 0 < order.quantity - rem then OrderStatus.partiallyFilled
      else order.status }

/-- The opposite side picked by both execute functions (lib.rs:152-155,
222-225). -/
def oppositeBook (e : MatchingEngine) (takerSide : OrderSide) : Book :=
  match takerSide with
  | OrderSide.buy => e.sell_orders
  | OrderSide.sell => e.buy_orders

/-- Writing the mutated opposite side back into the engine. -/
def setOppositeBook (e : MatchingEngine) (takerSide : OrderSide) (b : Book) :
    MatchingEngine :=
  match takerSide with
  | OrderSide.buy => { e with sell_orders := b }
  | OrderSide.sell => { e with buy_orders := b }

/-- `execute_market_order` (lib.rs:150-213).  The sweep starts from
`order.quantity` (lib.rs:157) and walks `opposite_orders.keys()` — ascending
price order on either side. -/
def executeMarketOrder (e : MatchingEngine) (order : Order) :
    MatchingEngine × Order × List Trade :=
  let opposite := oppositeBook e order.side
  let res := marketLoop e.symbol order.side opposite.keys opposite order.quantity
  (applyTrades (setOppositeBook e order.side res.2.2) res.1,
    finishTaker order res.2.1, res.1)

/-- `execute_limit_order` (lib.rs:216-293): errors when the order has no
price, otherwise sweeps the opposite side's key list with the `can_match`
filter. -/
def executeLimitOrder (e : MatchingEngine) (order : Order) :
    Except FlowExError (MatchingEngine × Order × List Trade) :=
  match order.price with
  | none => Except.error (FlowExError.trading "Limit order must have a price")
  | some order_price =>
    let opposite := oppositeBook e order.side
    let res := limitLoop e.symbol order.side order_price opposite.keys opposite order.quantity
    Except.ok
      (applyTrades (setOppositeBook e order.side res.2.2) res.1,
        finishTaker order res.2.1, res.1)

/-- `validate_order` (lib.rs:338-364). -/
def validateOrder (e : MatchingEngine) (order : Order) : Except FlowExError Unit :=
  if order.quantity ≤ 0 then
    Except.error (FlowExError.validation "Order quantity must be positive")
  else if order.trading_pair ≠ e.symbol then
    Except.error (FlowExError.validation "Order symbol does not match engine")
  else
    match order.order_type with
    | OrderType.limit =>
      match order.price with
      | none =>
        Except.error (FlowExError.validation "Limit order must have a positive price")
      | some p =>
        if p ≤ 0 then
          Except.error (FlowExError.validation "Limit order must have a positive price")
        else Except.ok ()
    | OrderType.market => Except.ok ()
    | OrderType.stopLoss =>
      match order.price with
      | none =>
        Except.error
          (FlowExError.validation "Stop/Take profit order must have a positive price")
      | some p =>
        if p ≤ 0 then
          Except.error
            (FlowExError.validation "Stop/Take profit order must have a positive price")
        else Except.ok ()
    | OrderType.takeProfit =>
      match order.price with
      | none =>
        Except.error
          (FlowExError.validation "Stop/Take profit order must have a positive price")
      | some p =>
        if p ≤ 0 then
          Except.error
            (FlowExError.validation "Stop/Take profit order must have a positive price")
        else Except.ok ()

/-- `add_to_order_book` (lib.rs:296-310): errors when the order has no price,
otherwise appends the order to the back of its side's queue at that price. -/
def addToOrderBook (e : MatchingEngine) (order : Order) :
    Except FlowExError MatchingEngine :=
  match order.price with
  | none =>
    Except.error (FlowExError.trading "Order must have a price to be added to order book")
  | some price =>
    Except.ok
      (match order.side with
      | OrderSide.buy => { e with buy_orders := e.buy_orders.insert price order }
      | OrderSide.sell => { e with sell_orders := e.sell_orders.insert price order })

/-- `add_order` (lib.rs:40-68).  Returns the engine after the call (Rust
mutates `&mut self`, so sweep effects persist even when a later step errors)
together with the call's result. -/
def addOrder (e : MatchingEngine) (order : Order) :
    MatchingEngine × Except FlowExError (List Trade) :=
  match validateOrder e order with
  | Except.error err => (e, Except.error err)
  | Except.ok _ =>
    let executed : Except FlowExError (MatchingEngine × Order × List Trade) :=
      match order.order_type with
      | OrderType.market => Except.ok (executeMarketOrder e order)
      | OrderType.limit => executeLimitOrder e order
      | OrderType.stopLoss => executeLimitOrder e order
      | OrderType.takeProfit => executeLimitOrder e order
    match executed with
    | Except.error err => (e, Except.error err)
    | Except.ok (e', order', trades) =>
      if 0 < order'.remaining_quantity ∧ order'.status ≠ OrderStatus.cancelled then
        match addToOrderBook e' order' with
        | Except.error err => (e', Except.error err)
        | Except.ok e'' => (e'', Except.ok trades)
      else (e', Except.ok trades)

/-- One side's scan of `cancel_order` (lib.rs:73-90): find the first level
whose queue holds the order id, remove that order from the queue, and report
the new side; `none` when the id is absent.  An emptied queue is left in
place — `cancel_order` has no empty-level cleanup. -/
def cancelScan (oid : Nat) : List (ℚ × List Order) → Option (List (ℚ × List Order))
  | [] => none
  | (p, l) :: rest =>
    if l.any (fun o => o.id == oid) then
      some ((p, l.eraseP (fun o => o.id == oid)) :: rest)
    else
      match cancelScan oid rest with
      | some rest' => some ((p, l) :: rest')
      | none => none

/-- `cancel_order` (lib.rs:71-94): scan the buy side, then the sell side;
true when an order was removed.  (The removed order's `Cancelled` status is
set on a local value that is then dropped.) -/
def cancelOrder (e : MatchingEngine) (oid : Nat) : MatchingEngine × Bool :=
  match cancelScan oid e.buy_orders with
  | some b' => ({ e with buy_orders := b' }, true)
  | none =>
    match cancelScan oid e.sell_orders with
    | some s' => ({ e with sell_orders := s' }, true)
    | none => (e, false)

/-- `get_best_bid` (lib.rs:132): `buy_orders.keys().rev().next()` — the
greatest bid key, empty levels included. -/
def getBestBid (e : MatchingEngine) : Option ℚ := e.buy_orders.keys.getLast?

/-- `get_best_ask` (lib.rs:137): `sell_orders.keys().next()` — the least ask
key, empty levels included. -/
def getBestAsk (e : MatchingEngine) : Option ℚ := e.sell_orders.keys.head?

/-- A Market order with the same fields as `o` apart from its type and its
(unused) price — "a Market order of the same side and quantity". -/
def asMarket (o : Order) : Order :=
  { o with order_type := OrderType.market, price := none }

/-- Mirror of the `create_test_order` helper of the engine's test module
(lib.rs:385-405): a fresh order of the given side, type, price and quantity,
with `filled_quantity = 0`, `remaining_quantity = quantity`, status New. -/
def testOrder (i : Nat) (side : OrderSide) (ty : OrderType) (price : Option ℚ)
    (quantity : ℚ) : Order :=
  { id := i
    trading_pair := "BTCUSDT"
    side := side
    order_type := ty
    price := price
    quantity := quantity
    filled_quantity := 0
    remaining_quantity := quantity
    status := OrderStatus.new }

/-- The per-order fill-state invariant of the spec:
`filled_quantity + remaining_quantity == quantity` and
`remaining_quantity >= 0`. -/
def qtyInv (o : Order) : Prop :=
  o.filled_quantity + o.remaining_quantity = o.quantity ∧ 0 ≤ o.remaining_quantity

/-- Every order of every price level of one book side satisfies `P`, which may
depend on the level's key. -/
def BookWF (P : ℚ → Order → Prop) (b : Book) : Prop :=
  ∀ pl ∈ b, ∀ o ∈ pl.2, P pl.1 o

/-- The association list represents a `BTreeMap`: keys strictly ascending
(hence unique).  Every book built by the engine's own operations has this
shape. -/
def Book.Sorted (b : Book) : Prop :=
  List.Pairwise (fun x y => x < y) (Book.keys b)

/-- Both sides' resting orders satisfy the fill-state invariant. -/
def EngineQtyWF (e : MatchingEngine) : Prop :=
  BookWF (fun _ o => qtyInv o) e.buy_orders ∧ BookWF (fun _ o => qtyInv o) e.sell_orders

/-- Engine states reachable through the public mutating API from a fresh
engine, feeding `add_order` only orders whose fill state is the initial one
(`filled_quantity = 0`, `remaining_quantity = quantity`), as every caller in
the repository does.  Both the `Ok` and the `Err` outcome of a call yield the
resulting engine — a Rust caller keeps the mutated `&mut self` either way. -/
inductive Reachable : MatchingEngine → Prop where
  | new (symbol : String) : Reachable (MatchingEngine.new symbol)
  | add {e : MatchingEngine} (o : Order) (h1 : o.filled_quantity = 0)
      (h2 : o.remaining_quantity = o.quantity) (h : Reachable e) :
      Reachable (addOrder e o).fst
  | cancel {e : MatchingEngine} (oid : Nat) (h : Reachable e) :
      Reachable (cancelOrder e oid).fst

/-!  Lemmas.  First, that `consumeQueue` satisfies the source loop's own
recurrence in the push-back case, then its elementary properties. -/

/-- In the push-back case the source loop iterates once more on the queue
`requeueFill c tq :: rest` with remainder `rem - tq`; `consumeQueue` folds
that iteration in, and this is exact: the extra iteration contributes nothing
because the remainder is already exhausted, so the definition satisfies the
loop's literal recurrence. -/
theorem consumeQueue_requeue (s : String) (ts : OrderSide) (lp : ℚ) (c : Order)
    (rest : List Order) (rem : ℚ) (h0 : ¬ rem ≤ 0)
    (h1 : ¬ c.remaining_quantity - min rem c.remaining_quantity ≤ 0) :
    consumeQueue s ts lp (c :: rest) rem =
      (mkTrade s ts (c.price.getD lp) (min rem c.remaining_quantity) ::
          (consumeQueue s ts lp (requeueFill c (min rem c.remaining_quantity) :: rest)
            (rem - min rem c.remaining_quantity)).1,
        (consumeQueue s ts lp (requeueFill c (min rem c.remaining_quantity) :: rest)
          (rem - min rem c.remaining_quantity)).2.1,
        (consumeQueue s ts lp (requeueFill c (min rem c.remaining_quantity) :: rest)
          (rem - min rem c.remaining_quantity)).2.2) := by
  have hmin : min rem c.remaining_quantity = rem := by
    rcases min_cases rem c.remaining_quantity with ⟨h, _⟩ | ⟨h, _⟩
    · exact h
    · exact absurd (by simp [h]) h1
  have hz : rem - min rem c.remaining_quantity = 0 := by rw [hmin, sub_self]
  conv_lhs => rw [consumeQueue]
  rw [hz]
  simp [consumeQueue, h0, h1]

/-- A closed-form witness that `consumeQueue_requeue`'s hypotheses are
satisfiable: a taker remainder of 1 against a counter order with remaining 2. -/
theorem consumeQueue_requeue_example :
    consumeQueue "BTCUSDT" OrderSide.buy 50
        [testOrder 1 OrderSide.sell OrderType.limit (some 50) 2] 1 =
      (mkTrade "BTCUSDT" OrderSide.buy 50 1 ::
          (consumeQueue "BTCUSDT" OrderSide.buy 50
            [requeueFill (testOrder 1 OrderSide.sell OrderType.limit (some 50) 2) 1] 0).1,
        (consumeQueue "BTCUSDT" OrderSide.buy 50
          [requeueFill (testOrder 1 OrderSide.sell OrderType.limit (some 50) 2) 1] 0).2.1,
        (consumeQueue "BTCUSDT" OrderSide.buy 50
          [requeueFill (testOrder 1 OrderSide.sell OrderType.limit (some 50) 2) 1] 0).2.2) := by
  have h := consumeQueue_requeue "BTCUSDT" OrderSide.buy 50
    (testOrder 1 OrderSide.sell OrderType.limit (some 50) 2) [] 1
    (by norm_num) (by norm_num [testOrder])
  simpa [testOrder] using h

/-- The taker's remainder stays nonnegative through one level. -/
theorem consumeQueue_rem_nonneg (s : String) (ts : OrderSide) (lp : ℚ)
    (q : List Order) (rem : ℚ) (h : 0 ≤ rem) :
    0 ≤ (consumeQueue s ts lp q rem).2.1 := by
  induction q generalizing rem with
  | nil => simpa [consumeQueue] using h
  | cons c rest ih =>
    rw [consumeQueue]
    split
    · simpa using h
    · split
      · simpa using ih _ (sub_nonneg.mpr (min_le_left _ _))
      · simpa using sub_nonneg.mpr (min_le_left _ _)

/-- Any per-order property stable under `requeueFill` (by a fill no larger
than the order's remainder) carries from a level's queue to the queue
`consumeQueue` leaves behind. -/
theorem consumeQueue_queue_pred (P : Order → Prop)
    (hstab : ∀ o tq, P o → tq ≤ o.remaining_quantity → P (requeueFill o tq))
    (s : String) (ts : OrderSide) (lp : ℚ) (q : List Order) (rem : ℚ)
    (hq : ∀ o ∈ q, P o) :
    ∀ o ∈ (consumeQueue s ts lp q rem).2.2, P o := by
  induction q generalizing rem with
  | nil => simp [consumeQueue]
  | cons c rest ih =>
    rw [consumeQueue]
    split
    · simpa using hq
    · split
      · simpa using ih _ (fun o ho => hq o (List.mem_cons_of_mem _ ho))
      · intro o ho
        simp only at ho
        rcases List.mem_cons.mp ho with rfl | ho
        · exact hstab _ _ (hq c (List.mem_cons_self _ _)) (min_le_right _ _)
        · exact hq o (List.mem_cons_of_mem _ ho)

/-- When every order of the queue carries the level's price, every trade the
level emits executes at that price (`trade_price = counter_order.price
.unwrap_or(price)`, lib.rs:175/255). -/
theorem consumeQueue_trades_price (s : String) (ts : OrderSide) (lp : ℚ)
    (q : List Order) (rem : ℚ) (hq : ∀ o ∈ q, o.price = some lp) :
    ∀ t ∈ (consumeQueue s ts lp q rem).1, t.price = lp := by
  induction q generalizing rem with
  | nil => simp [consumeQueue]
  | cons c rest ih =>
    rw [consumeQueue]
    split
    · simp
    · have hc : c.price = some lp := hq c (List.mem_cons_self _ _)
      split
      · intro t ht
        rcases List.mem_cons.mp (by simpa using ht) with rfl | ht
        · simp [mkTrade, hc]
        · exact ih _ (fun o ho => hq o (List.mem_cons_of_mem _ ho)) t ht
      · intro t ht
        have hts : t = mkTrade s ts (c.price.getD lp) (min rem c.remaining_quantity) := by
          simpa using ht
        subst hts
        simp [mkTrade, hc]

/-- `BookWF` transfers from a book to a level looked up in it. -/
theorem bookWF_find? {P : ℚ → Order → Prop} {b : Book} {p : ℚ} {l : List Order}
    (h : BookWF P b) (hf : b.find? p = some l) : ∀ o ∈ l, P p o := by
  induction b with
  | nil => simp [Book.find?] at hf
  | cons pl rest ih =>
    obtain ⟨q, lv⟩ := pl
    rw [Book.find?] at hf
    split at hf
    · rename_i hpq
      injection hf with hf
      subst hf
      subst hpq
      exact h (p, lv) (List.mem_cons_self _ _)
    · exact ih (fun pl hpl => h pl (List.mem_cons_of_mem _ hpl)) hf

/-- `BookWF` survives writing back a level whose orders satisfy `P`. -/
theorem bookWF_set {P : ℚ → Order → Prop} {b : Book} {p : ℚ} {l' : List Order}
    (h : BookWF P b) (hl : ∀ o ∈ l', P p o) : BookWF P (b.set p l') := by
  induction b with
  | nil => simp [Book.set, BookWF]
  | cons pl rest ih =>
    obtain ⟨q, lv⟩ := pl
    rw [Book.set]
    split
    · rename_i hpq
      subst hpq
      intro pl hpl
      rcases List.mem_cons.mp hpl with rfl | hpl
      · exact hl
      · exact h pl (List.mem_cons_of_mem _ hpl)
    · intro pl hpl
      rcases List.mem_cons.mp hpl with rfl | hpl
      · exact h (q, lv) (List.mem_cons_self _ _)
      · exact ih (fun x hx => h x (List.mem_cons_of_mem _ hx)) pl hpl

/-- `BookWF` survives removing a level. -/
theorem bookWF_erase {P : ℚ → Order → Prop} {b : Book} {p : ℚ}
    (h : BookWF P b) : BookWF P (b.erase p) := by
  induction b with
  | nil => simpa [Book.erase] using h
  | cons pl rest ih =>
    obtain ⟨q, lv⟩ := pl
    rw [Book.erase]
    split
    · exact fun x hx => h x (List.mem_cons_of_mem _ hx)
    · intro pl hpl
      rcases List.mem_cons.mp hpl with rfl | hpl
      · exact h (q, lv) (List.mem_cons_self _ _)
      · exact ih (fun x hx => h x (List.mem_cons_of_mem _ hx)) pl hpl

/-- `BookWF` survives inserting an order satisfying `P` at its price. -/
theorem bookWF_insert {P : ℚ → Order → Prop} {b : Book} {p : ℚ} {o : Order}
    (h : BookWF P b) (ho : P p o) : BookWF P (b.insert p o) := by
  induction b with
  | nil =>
    intro pl hpl
    rcases List.mem_cons.mp hpl with rfl | hpl
    · simpa using ho
    · simp at hpl
  | cons pl rest ih =>
    obtain ⟨q, lv⟩ := pl
    rw [Book.insert]
    split
    · intro x hx
      rcases List.mem_cons.mp hx with rfl | hx
      · simpa using ho
      · exact h x hx
    · split
      · rename_i hpq
        subst hpq
        intro x hx
        rcases List.mem_cons.mp hx with rfl | hx
        · intro ord hord
          rcases List.mem_append.mp hord with hord | hord
          · exact h (p, lv) (List.mem_cons_self _ _) ord hord
          · simp only [List.mem_singleton] at hord
            subst hord
            exact ho
        · exact h x (List.mem_cons_of_mem _ hx)
      · intro x hx
        rcases List.mem_cons.mp hx with rfl | hx
        · exact h (q, lv) (List.mem_cons_self _ _)
        · exact ih (fun y hy => h y (List.mem_cons_of_mem _ hy)) x hx

/-- Writing a level at `p` leaves lookups at other prices unchanged. -/
theorem find?_set_ne {b : Book} {p p' : ℚ} {l' : List Order} (hne : p' ≠ p) :
    (b.set p l').find? p' = b.find? p' := by
  induction b with
  | nil => simp [Book.set]
  | cons pl rest ih =>
    obtain ⟨q, lv⟩ := pl
    rw [Book.set]
    split
    · rename_i hpq
      subst hpq
      rw [Book.find?, Book.find?, if_neg hne, if_neg hne]
    · rw [Book.find?, Book.find?]
      split
      · rfl
      · exact ih

/-- Removing the level at `p` leaves lookups at other prices unchanged. -/
theorem find?_erase_ne {b : Book} {p p' : ℚ} (hne : p' ≠ p) :
    (b.erase p).find? p' = b.find? p' := by
  induction b with
  | nil => simp [Book.erase]
  | cons pl rest ih =>
    obtain ⟨q, lv⟩ := pl
    rw [Book.erase]
    split
    · rename_i hpq
      subst hpq
      rw [Book.find?, if_neg hne]
    · rw [Book.find?, Book.find?]
      split
      · rfl
      · exact ih

/-- A found key is a key. -/
theorem find?_some_mem_keys {b : Book} {p : ℚ} {l : List Order}
    (hf : b.find? p = some l) : p ∈ Book.keys b := by
  induction b with
  | nil => simp [Book.find?] at hf
  | cons pl rest ih =>
    obtain ⟨q, lv⟩ := pl
    rw [Book.find?] at hf
    split at hf
    · rename_i hpq
      subst hpq
      simp [Book.keys]
    · exact List.mem_cons_of_mem _ (ih hf)

/-- `add_to_order_book`'s insertion appends to the BACK of an existing
level's queue (`push_back`, lib.rs:306). -/
theorem find?_insert_append {b : Book} {p : ℚ} {l : List Order} (o : Order)
    (hs : b.Sorted) (hf : b.find? p = some l) :
    (b.insert p o).find? p = some (l ++ [o]) := by
  induction b with
  | nil => simp [Book.find?] at hf
  | cons pl rest ih =>
    obtain ⟨q, lv⟩ := pl
    have hs' : Book.Sorted rest := by
      have := hs
      rw [Book.Sorted, Book.keys] at this
      simpa [Book.Sorted, Book.keys] using (List.pairwise_cons.mp this).2
    by_cases hpq : p = q
    · subst hpq
      rw [Book.find?, if_pos rfl] at hf
      cases hf
      rw [Book.insert, if_neg (lt_irrefl p), if_pos rfl, Book.find?, if_pos rfl]
    · rw [Book.find?, if_neg hpq] at hf
      have hqp : q < p := by
        have hmem : p ∈ Book.keys rest := find?_some_mem_keys hf
        have := hs
        rw [Book.Sorted, Book.keys] at this
        exact (List.pairwise_cons.mp this).1 p (by simpa [Book.keys] using hmem)
      rw [Book.insert, if_neg (not_lt.mpr hqp.le), if_neg hpq, Book.find?, if_neg hpq]
      exact ih hs' hf

/-- A per-order property (possibly depending on the level key) stable under
`requeueFill` survives the market sweep. -/
theorem marketLoop_bookWF {P : ℚ → Order → Prop}
    (hstab : ∀ p o tq, P p o → tq ≤ o.remaining_quantity → P p (requeueFill o tq))
    (s : String) (ts : OrderSide) (keys : List ℚ) :
    ∀ (book : Book) (rem : ℚ), BookWF P book →
      BookWF P (marketLoop s ts keys book rem).2.2 := by
  induction keys with
  | nil => intro book rem h; simpa [marketLoop] using h
  | cons p ps ih =>
    intro book rem h
    rw [marketLoop]
    split
    · simpa using h
    · cases hf : book.find? p with
      | none => simpa [hf] using ih book rem h
      | some q =>
        simp only [hf]
        have hq' : ∀ o ∈ (consumeQueue s ts p q rem).2.2, P p o :=
          consumeQueue_queue_pred (P p) (fun o tq => hstab p o tq) s ts p q rem
            (bookWF_find? h hf)
        split
        · exact ih _ _ (bookWF_erase h)
        · exact ih _ _ (bookWF_set h hq')

/-- The same, for the limit sweep. -/
theorem limitLoop_bookWF {P : ℚ → Order → Prop}
    (hstab : ∀ p o tq, P p o → tq ≤ o.remaining_quantity → P p (requeueFill o tq))
    (s : String) (ts : OrderSide) (lp : ℚ) (keys : List ℚ) :
    ∀ (book : Book) (rem : ℚ), BookWF P book →
      BookWF P (limitLoop s ts lp keys book rem).2.2 := by
  induction keys with
  | nil => intro book rem h; simpa [limitLoop] using h
  | cons p ps ih =>
    intro book rem h
    rw [limitLoop]
    split
    · simpa using h
    · split
      · cases hf : book.find? p with
        | none => simpa [hf] using ih book rem h
        | some q =>
          simp only [hf]
          have hq' : ∀ o ∈ (consumeQueue s ts p q rem).2.2, P p o :=
            consumeQueue_queue_pred (P p) (fun o tq => hstab p o tq) s ts p q rem
              (bookWF_find? h hf)
          split
          · exact ih _ _ (bookWF_erase h)
          · exact ih _ _ (bookWF_set h hq')
      · exact ih book rem h

/-- The taker's remainder stays nonnegative through the market sweep. -/
theorem marketLoop_rem_nonneg (s : String) (ts : OrderSide) (keys : List ℚ) :
    ∀ (book : Book) (rem : ℚ), 0 ≤ rem → 0 ≤ (marketLoop s ts keys book rem).2.1 := by
  induction keys with
  | nil => intro book rem h; simpa [marketLoop] using h
  | cons p ps ih =>
    intro book rem h
    rw [marketLoop]
    split
    · simpa using h
    · cases hf : book.find? p with
      | none => simpa [hf] using ih book rem h
      | some q =>
        simp only [hf]
        exact ih _ _ (consumeQueue_rem_nonneg s ts p q rem h)

/-- The taker's remainder stays nonnegative through the limit sweep. -/
theorem limitLoop_rem_nonneg (s : String) (ts : OrderSide) (lp : ℚ) (keys : List ℚ) :
    ∀ (book : Book) (rem : ℚ), 0 ≤ rem → 0 ≤ (limitLoop s ts lp keys book rem).2.1 := by
  induction keys with
  | nil => intro book rem h; simpa [limitLoop] using h
  | cons p ps ih =>
    intro book rem h
    rw [limitLoop]
    split
    · simpa using h
    · split
      · cases hf : book.find? p with
        | none => simpa [hf] using ih book rem h
        | some q =>
          simp only [hf]
          exact ih _ _ (consumeQueue_rem_nonneg s ts p q rem h)
      · exact ih book rem h

/-- Every trade the limit sweep emits executes at the key of some level that
passed the `can_match` eligibility test, provided every resting order carries
its level's price. -/
theorem limitLoop_trades (s : String) (ts : OrderSide) (lp : ℚ) (keys : List ℚ) :
    ∀ (book : Book) (rem : ℚ), BookWF (fun p o => o.price = some p) book →
      ∀ t ∈ (limitLoop s ts lp keys book rem).1,
        ∃ p, canMatch ts lp p = true ∧ t.price = p := by
  induction keys with
  | nil => intro book rem _; simp [limitLoop]
  | cons p ps ih =>
    intro book rem h
    rw [limitLoop]
    split
    · simp
    · split
      · rename_i hcm
        cases hf : book.find? p with
        | none => simpa [hf] using ih book rem h
        | some q =>
          simp only [hf]
          have hq' : ∀ o ∈ (consumeQueue s ts p q rem).2.2, o.price = some p :=
            consumeQueue_queue_pred (fun o => o.price = some p)
              (fun o tq ho _ => by simpa [requeueFill] using ho) s ts p q rem
              (bookWF_find? h hf)
          split
          · intro t ht
            rcases List.mem_append.mp (by simpa using ht) with ht | ht
            · exact ⟨p, hcm, consumeQueue_trades_price s ts p q rem (bookWF_find? h hf) t ht⟩
            · exact ih _ _ (bookWF_erase h) t ht
          · intro t ht
            rcases List.mem_append.mp (by simpa using ht) with ht | ht
            · exact ⟨p, hcm, consumeQueue_trades_price s ts p q rem (bookWF_find? h hf) t ht⟩
            · exact ih _ _ (bookWF_set h hq') t ht
      · exact ih book rem h

/-- A level whose price fails the `can_match` test is left untouched by the
limit sweep. -/
theorem limitLoop_untouched (s : String) (ts : OrderSide) (lp : ℚ) (keys : List ℚ) :
    ∀ (book : Book) (rem : ℚ) (p₀ : ℚ), canMatch ts lp p₀ = false →
      ((limitLoop s ts lp keys book rem).2.2).find? p₀ = book.find? p₀ := by
  induction keys with
  | nil => intro book rem p₀ _; simp [limitLoop]
  | cons p ps ih =>
    intro book rem p₀ h₀
    rw [limitLoop]
    split
    · simp
    · split
      · rename_i hcm
        have hne : p₀ ≠ p := fun h => by rw [h] at h₀; rw [h₀] at hcm; cases hcm
        cases hf : book.find? p with
        | none => simpa [hf] using ih book rem p₀ h₀
        | some q =>
          simp only [hf]
          split
          · rw [ih _ _ p₀ h₀, find?_erase_ne hne]
          · rw [ih _ _ p₀ h₀, find?_set_ne hne]
      · exact ih book rem p₀ h₀

/-- When every visited key passes the `can_match` test, the limit sweep is
the market sweep: the two loops differ only in that test. -/
theorem limitLoop_eq_marketLoop (s : String) (ts : OrderSide) (lp : ℚ) (keys : List ℚ) :
    ∀ (book : Book) (rem : ℚ), (∀ p ∈ keys, canMatch ts lp p = true) →
      limitLoop s ts lp keys book rem = marketLoop s ts keys book rem := by
  induction keys with
  | nil => intro book rem _; rfl
  | cons p ps ih =>
    intro book rem hall
    rw [limitLoop, marketLoop]
    split
    · rfl
    · rw [if_pos (hall p (List.mem_cons_self _ _))]
      cases hf : book.find? p with
      | none => simpa [hf] using ih book rem (fun x hx => hall x (List.mem_cons_of_mem _ hx))
      | some q =>
        simp only [hf]
        rw [ih _ _ (fun x hx => hall x (List.mem_cons_of_mem _ hx))]

/-- `requeueFill` preserves the fill-state invariant when the fill does not
exceed the order's remainder. -/
theorem qtyInv_requeueFill {o : Order} {tq : ℚ} (h : qtyInv o)
    (htq : tq ≤ o.remaining_quantity) : qtyInv (requeueFill o tq) := by
  obtain ⟨h1, h2⟩ := h
  constructor
  · simp only [requeueFill]
    linarith
  · simp only [requeueFill]
    linarith

/-- `create_trade`'s scalar updates leave the buy side untouched. -/
theorem applyTrades_buy_orders (e : MatchingEngine) (ts : List Trade) :
    (applyTrades e ts).buy_orders = e.buy_orders := by
  induction ts generalizing e with
  | nil => rfl
  | cons t ts ih => simpa [applyTrades] using ih _

/-- `create_trade`'s scalar updates leave the sell side untouched. -/
theorem applyTrades_sell_orders (e : MatchingEngine) (ts : List Trade) :
    (applyTrades e ts).sell_orders = e.sell_orders := by
  induction ts generalizing e with
  | nil => rfl
  | cons t ts ih => simpa [applyTrades] using ih _

/-- Removing one order (`cancel_order`'s `orders.remove(pos)`) keeps every
per-order book property. -/
theorem cancelScan_bookWF {P : ℚ → Order → Prop} {oid : Nat} {b b' : Book}
    (hscan : cancelScan oid b = some b') (h : BookWF P b) : BookWF P b' := by
  induction b generalizing b' with
  | nil => simp [cancelScan] at hscan
  | cons pl rest ih =>
    obtain ⟨p, l⟩ := pl
    rw [cancelScan] at hscan
    split at hscan
    · cases hscan
      intro x hx
      rcases List.mem_cons.mp hx with rfl | hx
      · intro o ho
        exact h (p, l) (List.mem_cons_self _ _) o ((List.eraseP_sublist l).subset ho)
      · exact h x (List.mem_cons_of_mem _ hx)
    · revert hscan
      cases hrec : cancelScan oid rest with
      | none => intro hscan; cases hscan
      | some rest' =>
        intro hscan
        cases hscan
        intro x hx
        rcases List.mem_cons.mp hx with rfl | hx
        · exact h (p, l) (List.mem_cons_self _ _)
        · exact ih hrec (fun y hy => h y (List.mem_cons_of_mem _ hy)) x hx

/-- The market sweep preserves the engine's fill-state invariant. -/
theorem executeMarketOrder_WF {e : MatchingEngine} (o : Order)
    (h : EngineQtyWF e) : EngineQtyWF (executeMarketOrder e o).1 := by
  have hstab : ∀ (p : ℚ) (x : Order) (tq : ℚ), qtyInv x → tq ≤ x.remaining_quantity →
      qtyInv (requeueFill x tq) := fun _ _ _ hx htq => qtyInv_requeueFill hx htq
  obtain ⟨hb, hs⟩ := h
  cases hside : o.side with
  | buy =>
    constructor
    · simpa [executeMarketOrder, hside, oppositeBook, setOppositeBook,
        applyTrades_buy_orders] using hb
    · simpa [executeMarketOrder, hside, oppositeBook, setOppositeBook,
        applyTrades_sell_orders] using
        marketLoop_bookWF hstab e.symbol OrderSide.buy (Book.keys e.sell_orders)
          e.sell_orders o.quantity hs
  | sell =>
    constructor
    · simpa [executeMarketOrder, hside, oppositeBook, setOppositeBook,
        applyTrades_buy_orders] using
        marketLoop_bookWF hstab e.symbol OrderSide.sell (Book.keys e.buy_orders)
          e.buy_orders o.quantity hb
    · simpa [executeMarketOrder, hside, oppositeBook, setOppositeBook,
        applyTrades_sell_orders] using hs

/-- The limit sweep preserves the engine's fill-state invariant. -/
theorem executeLimitOrder_WF {e : MatchingEngine} {o : Order}
    {r : MatchingEngine × Order × List Trade}
    (hres : executeLimitOrder e o = Except.ok r) (h : EngineQtyWF e) :
    EngineQtyWF r.1 := by
  have hstab : ∀ (p : ℚ) (x : Order) (tq : ℚ), qtyInv x → tq ≤ x.remaining_quantity →
      qtyInv (requeueFill x tq) := fun _ _ _ hx htq => qtyInv_requeueFill hx htq
  obtain ⟨hb, hs⟩ := h
  cases hp : o.price with
  | none => rw [executeLimitOrder, hp] at hres; cases hres
  | some lp =>
    rw [executeLimitOrder, hp] at hres
    cases hres
    cases hside : o.side with
    | buy =>
      constructor
      · simpa [hside, oppositeBook, setOppositeBook, applyTrades_buy_orders] using hb
      · simpa [hside, oppositeBook, setOppositeBook, applyTrades_sell_orders] using
          limitLoop_bookWF hstab e.symbol OrderSide.buy lp (Book.keys e.sell_orders)
            e.sell_orders o.quantity hs
    | sell =>
      constructor
      · simpa [hside, oppositeBook, setOppositeBook, applyTrades_buy_orders] using
          limitLoop_bookWF hstab e.symbol OrderSide.sell lp (Book.keys e.buy_orders)
            e.buy_orders o.quantity hb
      · simpa [hside, oppositeBook, setOppositeBook, applyTrades_sell_orders] using hs

/-- The taker order leaves either sweep with
`filled_quantity + remaining_quantity = quantity` by construction
(`order.filled_quantity = order.quantity - remaining_quantity`,
lib.rs:203-204 / 283-284). -/
theorem executeMarketOrder_fill_sum (e : MatchingEngine) (o : Order) :
    (executeMarketOrder e o).2.1.filled_quantity +
        (executeMarketOrder e o).2.1.remaining_quantity =
      (executeMarketOrder e o).2.1.quantity := by
  simp only [executeMarketOrder, finishTaker]
  ring

/-- As `executeMarketOrder_fill_sum`, for the limit sweep. -/
theorem executeLimitOrder_fill_sum {e : MatchingEngine} {o : Order}
    {r : MatchingEngine × Order × List Trade}
    (hres : executeLimitOrder e o = Except.ok r) :
    r.2.1.filled_quantity + r.2.1.remaining_quantity = r.2.1.quantity := by
  cases hp : o.price with
  | none => rw [executeLimitOrder, hp] at hres; cases hres
  | some lp =>
    rw [executeLimitOrder, hp] at hres
    cases hres
    simp only [finishTaker]
    ring

/-- Step 3 of `add_order`: inserting the (possibly partially filled) incoming
order preserves the fill-state invariant — the insertion is guarded by
`remaining_quantity > 0`, and the sweep established
`filled + remaining = quantity`. -/
theorem addOrder_insert_WF {e' : MatchingEngine} {order' : Order} (trades : List Trade)
    (he' : EngineQtyWF e')
    (hfin : order'.filled_quantity + order'.remaining_quantity = order'.quantity) :
    EngineQtyWF
      (if 0 < order'.remaining_quantity ∧ order'.status ≠ OrderStatus.cancelled then
          match addToOrderBook e' order' with
          | Except.error err => (e', Except.error err)
          | Except.ok e'' => (e'', Except.ok trades)
        else (e', Except.ok trades)).fst := by
  split
  · rename_i hcond
    cases hpr : order'.price with
    | none => simpa [addToOrderBook, hpr] using he'
    | some pr =>
      have hinv : qtyInv order' := ⟨hfin, le_of_lt hcond.1⟩
      cases hside : order'.side with
      | buy =>
        simp only [addToOrderBook, hpr, hside]
        exact ⟨bookWF_insert he'.1 hinv, he'.2⟩
      | sell =>
        simp only [addToOrderBook, hpr, hside]
        exact ⟨he'.1, bookWF_insert he'.2 hinv⟩
  · exact he'

/-- `add_order` preserves the engine's fill-state invariant, on its `Ok` and
its `Err` outcome alike. -/
theorem addOrder_WF {e : MatchingEngine} (o : Order) (h : EngineQtyWF e) :
    EngineQtyWF (addOrder e o).fst := by
  rw [addOrder]
  cases hv : validateOrder e o with
  | error err => exact h
  | ok u =>
    cases u
    cases hty : o.order_type with
    | market =>
      simp only [hty]
      rcases hm : executeMarketOrder e o with ⟨e', order', trades⟩
      simp only [hm]
      refine addOrder_insert_WF trades ?_ ?_
      · have := executeMarketOrder_WF o h
        rwa [hm] at this
      · have := executeMarketOrder_fill_sum e o
        rwa [hm] at this
    | limit =>
      simp only [hty]
      cases hex : executeLimitOrder e o with
      | error err => simp only [hex]; exact h
      | ok r =>
        rcases r with ⟨e', order', trades⟩
        simp only [hex]
        exact addOrder_insert_WF trades (executeLimitOrder_WF hex h)
          (executeLimitOrder_fill_sum hex)
    | stopLoss =>
      simp only [hty]
      cases hex : executeLimitOrder e o with
      | error err => simp only [hex]; exact h
      | ok r =>
        rcases r with ⟨e', order', trades⟩
        simp only [hex]
        exact addOrder_insert_WF trades (executeLimitOrder_WF hex h)
          (executeLimitOrder_fill_sum hex)
    | takeProfit =>
      simp only [hty]
      cases hex : executeLimitOrder e o with
      | error err => simp only [hex]; exact h
      | ok r =>
        rcases r with ⟨e', order', trades⟩
        simp only [hex]
        exact addOrder_insert_WF trades (executeLimitOrder_WF hex h)
          (executeLimitOrder_fill_sum hex)

/-- `cancel_order` preserves the engine's fill-state invariant. -/
theorem cancelOrder_WF {e : MatchingEngine} (oid : Nat) (h : EngineQtyWF e) :
    EngineQtyWF (cancelOrder e oid).fst := by
  rw [cancelOrder]
  cases hb : cancelScan oid e.buy_orders with
  | some b' => exact ⟨cancelScan_bookWF hb h.1, h.2⟩
  | none =>
    cases hs : cancelScan oid e.sell_orders with
    | some s' => exact ⟨h.1, cancelScan_bookWF hs h.2⟩
    | none => exact h

/-- Every reachable engine state satisfies the fill-state invariant on all
resting orders. -/
theorem reachable_WF {e : MatchingEngine} (h : Reachable e) : EngineQtyWF e := by
  induction h with
  | new s => exact ⟨fun pl hpl => by simp [MatchingEngine.new] at hpl,
      fun pl hpl => by simp [MatchingEngine.new] at hpl⟩
  | add o h1 h2 hr ih => exact addOrder_WF o ih
  | cancel oid hr ih => exact cancelOrder_WF oid ih

/-!  Claim theorems. -/

/-- C5: for every order handed to `add_order` with `filled_quantity = 0` and
`remaining_quantity = quantity`, and for every order resting in the book, the
equation `filled_quantity + remaining_quantity = quantity` and the inequality
`remaining_quantity ≥ 0` hold at every observable point: after every
`add_order` and `cancel_order` call, every order resting on either side
satisfies both (counter orders that matched and still rest are among them),
and the incoming order itself leaves either sweep satisfying both. -/
theorem fill_state_invariant (e : MatchingEngine) (h : Reachable e) :
    (∀ pl ∈ e.buy_orders, ∀ o ∈ pl.2,
      o.filled_quantity + o.remaining_quantity = o.quantity ∧
        0 ≤ o.remaining_quantity) ∧
    (∀ pl ∈ e.sell_orders, ∀ o ∈ pl.2,
      o.filled_quantity + o.remaining_quantity = o.quantity ∧
        0 ≤ o.remaining_quantity) ∧
    (∀ (e₀ : MatchingEngine) (o : Order), 0 ≤ o.quantity →
      (executeMarketOrder e₀ o).2.1.filled_quantity +
          (executeMarketOrder e₀ o).2.1.remaining_quantity =
        (executeMarketOrder e₀ o).2.1.quantity ∧
      0 ≤ (executeMarketOrder e₀ o).2.1.remaining_quantity) ∧
    (∀ (e₀ : MatchingEngine) (o : Order) (r : MatchingEngine × Order × List Trade),
      0 ≤ o.quantity → executeLimitOrder e₀ o = Except.ok r →
      r.2.1.filled_quantity + r.2.1.remaining_quantity = r.2.1.quantity ∧
        0 ≤ r.2.1.remaining_quantity) := by
  obtain ⟨hb, hs⟩ := reachable_WF h
  refine ⟨fun pl hpl o ho => hb pl hpl o ho, fun pl hpl o ho => hs pl hpl o ho, ?_, ?_⟩
  · intro e₀ o hq
    refine ⟨executeMarketOrder_fill_sum e₀ o, ?_⟩
    simp only [executeMarketOrder, finishTaker]
    exact marketLoop_rem_nonneg _ _ _ _ _ hq
  · intro e₀ o r hq hres
    refine ⟨executeLimitOrder_fill_sum hres, ?_⟩
    cases hp : o.price with
    | none => rw [executeLimitOrder, hp] at hres; cases hres
    | some lp =>
      rw [executeLimitOrder, hp] at hres
      cases hres
      simp only [finishTaker]
      exact limitLoop_rem_nonneg _ _ _ _ _ _ hq

/-- Witness for C5 at a concrete reachable state: a fresh engine that
accepted one resting buy limit order. -/
theorem fill_state_invariant_witness :
    (∀ pl ∈ ((addOrder (MatchingEngine.new "BTCUSDT")
        (testOrder 1 OrderSide.buy OrderType.limit (some 50) 2)).fst).buy_orders,
      ∀ o ∈ pl.2,
      o.filled_quantity + o.remaining_quantity = o.quantity ∧
        0 ≤ o.remaining_quantity) ∧
    (∀ pl ∈ ((addOrder (MatchingEngine.new "BTCUSDT")
        (testOrder 1 OrderSide.buy OrderType.limit (some 50) 2)).fst).sell_orders,
      ∀ o ∈ pl.2,
      o.filled_quantity + o.remaining_quantity = o.quantity ∧
        0 ≤ o.remaining_quantity) ∧
    (∀ (e₀ : MatchingEngine) (o : Order), 0 ≤ o.quantity →
      (executeMarketOrder e₀ o).2.1.filled_quantity +
          (executeMarketOrder e₀ o).2.1.remaining_quantity =
        (executeMarketOrder e₀ o).2.1.quantity ∧
      0 ≤ (executeMarketOrder e₀ o).2.1.remaining_quantity) ∧
    (∀ (e₀ : MatchingEngine) (o : Order) (r : MatchingEngine × Order × List Trade),
      0 ≤ o.quantity → executeLimitOrder e₀ o = Except.ok r →
      r.2.1.filled_quantity + r.2.1.remaining_quantity = r.2.1.quantity ∧
        0 ≤ r.2.1.remaining_quantity) :=
  fill_state_invariant _
    (Reachable.add (testOrder 1 OrderSide.buy OrderType.limit (some 50) 2) rfl rfl
      (Reachable.new "BTCUSDT"))

/-- C4: within one price level, consumption is strictly oldest-first.  With
orders `A` then `B` resting at one level and an incoming remainder `q` that
cannot fill both: if `q < A.remaining` the only trade is against `A`, which is
pushed back to the FRONT (keeping time priority) with `B` untouched behind it;
if `q = A.remaining`, `A` is fully consumed and `B` untouched; if
`q > A.remaining`, `A` is fully filled first and only then is `B` touched.
Moreover `add_to_order_book` appends a new resting order to the BACK of an
existing level's queue. -/
theorem fifo_within_level (s : String) (ts : OrderSide) (p q : ℚ) (A B : Order)
    (hA : 0 < A.remaining_quantity) (hB : 0 < B.remaining_quantity) (hq : 0 < q)
    (hboth : q < A.remaining_quantity + B.remaining_quantity) :
    (q < A.remaining_quantity →
      consumeQueue s ts p [A, B] q =
        ([mkTrade s ts (A.price.getD p) q], 0, [requeueFill A q, B])) ∧
    (q = A.remaining_quantity →
      consumeQueue s ts p [A, B] q = ([mkTrade s ts (A.price.getD p) q], 0, [B])) ∧
    (A.remaining_quantity < q →
      consumeQueue s ts p [A, B] q =
        ([mkTrade s ts (A.price.getD p) A.remaining_quantity,
            mkTrade s ts (B.price.getD p) (q - A.remaining_quantity)], 0,
          [requeueFill B (q - A.remaining_quantity)])) ∧
    (∀ (b : Book) (l : List Order) (o : Order), Book.Sorted b →
      b.find? p = some l → (b.insert p o).find? p = some (l ++ [o])) := by
  refine ⟨?_, ?_, ?_, fun b l o hs hf => find?_insert_append o hs hf⟩
  · intro hlt
    have hmin : min q A.remaining_quantity = q := min_eq_left hlt.le
    have hcond : ¬ (A.remaining_quantity - q ≤ 0) := not_le.mpr (sub_pos.mpr hlt)
    simp [consumeQueue, hmin, not_le.mpr hq, hcond, sub_self]
  · intro heq
    subst heq
    simp [consumeQueue, min_self, not_le.mpr hq, sub_self]
  · intro hgt
    have hmin : min q A.remaining_quantity = A.remaining_quantity := min_eq_right hgt.le
    have hrem2 : 0 < q - A.remaining_quantity := sub_pos.mpr hgt
    have hmin2 : min (q - A.remaining_quantity) B.remaining_quantity =
        q - A.remaining_quantity := min_eq_left (by linarith)
    have hcond2 : ¬ (B.remaining_quantity - (q - A.remaining_quantity) ≤ 0) :=
      not_le.mpr (by linarith)
    simp [consumeQueue, hmin, hmin2, not_le.mpr hq, not_le.mpr hrem2, hcond2, sub_self]

/-- Witness for C4: `A` with remaining 2, `B` with remaining 3, incoming 1. -/
theorem fifo_within_level_witness :
    ((1 : ℚ) < (testOrder 1 OrderSide.sell OrderType.limit (some 50) 2).remaining_quantity →
      consumeQueue "BTCUSDT" OrderSide.buy 50
          [testOrder 1 OrderSide.sell OrderType.limit (some 50) 2,
            testOrder 2 OrderSide.sell OrderType.limit (some 50) 3] 1 =
        ([mkTrade "BTCUSDT" OrderSide.buy
            ((testOrder 1 OrderSide.sell OrderType.limit (some 50) 2).price.getD 50) 1], 0,
          [requeueFill (testOrder 1 OrderSide.sell OrderType.limit (some 50) 2) 1,
            testOrder 2 OrderSide.sell OrderType.limit (some 50) 3])) ∧
    ((1 : ℚ) = (testOrder 1 OrderSide.sell OrderType.limit (some 50) 2).remaining_quantity →
      consumeQueue "BTCUSDT" OrderSide.buy 50
          [testOrder 1 OrderSide.sell OrderType.limit (some 50) 2,
            testOrder 2 OrderSide.sell OrderType.limit (some 50) 3] 1 =
        ([mkTrade "BTCUSDT" OrderSide.buy
            ((testOrder 1 OrderSide.sell OrderType.limit (some 50) 2).price.getD 50) 1], 0,
          [testOrder 2 OrderSide.sell OrderType.limit (some 50) 3])) ∧
    ((testOrder 1 OrderSide.sell OrderType.limit (some 50) 2).remaining_quantity < 1 →
      consumeQueue "BTCUSDT" OrderSide.buy 50
          [testOrder 1 OrderSide.sell OrderType.limit (some 50) 2,
            testOrder 2 OrderSide.sell OrderType.limit (some 50) 3] 1 =
        ([mkTrade "BTCUSDT" OrderSide.buy
            ((testOrder 1 OrderSide.sell OrderType.limit (some 50) 2).price.getD 50)
            (testOrder 1 OrderSide.sell OrderType.limit (some 50) 2).remaining_quantity,
          mkTrade "BTCUSDT" OrderSide.buy
            ((testOrder 2 OrderSide.sell OrderType.limit (some 50) 3).price.getD 50)
            (1 - (testOrder 1 OrderSide.sell OrderType.limit (some 50) 2).remaining_quantity)],
          0,
          [requeueFill (testOrder 2 OrderSide.sell OrderType.limit (some 50) 3)
            (1 - (testOrder 1 OrderSide.sell OrderType.limit (some 50) 2).remaining_quantity)])) ∧
    (∀ (b : Book) (l : List Order) (o : Order), Book.Sorted b →
      b.find? 50 = some l → (b.insert 50 o).find? 50 = some (l ++ [o])) :=
  fifo_within_level "BTCUSDT" OrderSide.buy 50 1
    (testOrder 1 OrderSide.sell OrderType.limit (some 50) 2)
    (testOrder 2 OrderSide.sell OrderType.limit (some 50) 3)
    (by norm_num [testOrder]) (by norm_num [testOrder]) (by norm_num)
    (by norm_num [testOrder])

/-- The scalar updates of `create_trade` do not move either book side. -/
theorem oppositeBook_applyTrades (e : MatchingEngine) (ts : OrderSide)
    (trades : List Trade) :
    oppositeBook (applyTrades e trades) ts = oppositeBook e ts := by
  cases ts with
  | buy => simp [oppositeBook, applyTrades_sell_orders]
  | sell => simp [oppositeBook, applyTrades_buy_orders]

/-- Reading back the book just written. -/
theorem oppositeBook_setOppositeBook (e : MatchingEngine) (ts : OrderSide) (b : Book) :
    oppositeBook (setOppositeBook e ts b) ts = b := by
  cases ts <;> rfl

/-- C7: a limit sweep only ever trades at a level whose price satisfies the
incoming order's limit — every trade of a Buy limit order executes at price
≤ the limit, every trade of a Sell limit order at price ≥ the limit — and a
level whose price fails the eligibility test is left untouched.  The book
hypothesis (every resting order carries its level's price) is the shape
`add_to_order_book` itself maintains, since it keys each order by its own
price. -/
theorem limit_trades_respect_limit (e : MatchingEngine) (o : Order) (lp : ℚ)
    (hp : o.price = some lp)
    (hwf : BookWF (fun p ord => ord.price = some p) (oppositeBook e o.side)) :
    ∃ e' o' ts, executeLimitOrder e o = Except.ok (e', o', ts) ∧
      (∀ t ∈ ts, (o.side = OrderSide.buy → t.price ≤ lp) ∧
        (o.side = OrderSide.sell → lp ≤ t.price)) ∧
      (∀ p₀, canMatch o.side lp p₀ = false →
        (oppositeBook e' o.side).find? p₀ = (oppositeBook e o.side).find? p₀) := by
  rw [executeLimitOrder, hp]
  refine ⟨_, _, _, rfl, ?_, ?_⟩
  · intro t ht
    obtain ⟨p, hcm, hprice⟩ :=
      limitLoop_trades e.symbol o.side lp (Book.keys (oppositeBook e o.side))
        (oppositeBook e o.side) o.quantity hwf t ht
    subst hprice
    constructor
    · intro hside
      rw [hside] at hcm
      simpa [canMatch] using hcm
    · intro hside
      rw [hside] at hcm
      simpa [canMatch] using hcm
  · intro p₀ h₀
    rw [oppositeBook_applyTrades, oppositeBook_setOppositeBook]
    exact limitLoop_untouched e.symbol o.side lp (Book.keys (oppositeBook e o.side))
      (oppositeBook e o.side) o.quantity p₀ h₀

/-- Witness for C7: one resting ask at 100, an incoming Buy limit at 150. -/
theorem limit_trades_respect_limit_witness :
    ∃ e' o' ts,
      executeLimitOrder
          { symbol := "BTCUSDT", buy_orders := [],
            sell_orders := [(100, [testOrder 1 OrderSide.sell OrderType.limit (some 100) 1])],
            last_trade_price := none, total_volume := 0 }
          (testOrder 2 OrderSide.buy OrderType.limit (some 150) 1) =
        Except.ok (e', o', ts) ∧
      (∀ t ∈ ts,
        ((testOrder 2 OrderSide.buy OrderType.limit (some 150) 1).side = OrderSide.buy →
          t.price ≤ 150) ∧
        ((testOrder 2 OrderSide.buy OrderType.limit (some 150) 1).side = OrderSide.sell →
          150 ≤ t.price)) ∧
      (∀ p₀,
        canMatch (testOrder 2 OrderSide.buy OrderType.limit (some 150) 1).side 150 p₀ =
            false →
        (oppositeBook e' (testOrder 2 OrderSide.buy OrderType.limit (some 150) 1).side).find?
            p₀ =
          (oppositeBook
              { symbol := "BTCUSDT", buy_orders := [],
                sell_orders :=
                  [(100, [testOrder 1 OrderSide.sell OrderType.limit (some 100) 1])],
                last_trade_price := none, total_volume := 0 }
              (testOrder 2 OrderSide.buy OrderType.limit (some 150) 1).side).find? p₀) :=
  limit_trades_respect_limit _ (testOrder 2 OrderSide.buy OrderType.limit (some 150) 1)
    150 rfl (by simp [BookWF, oppositeBook, testOrder])

/-- C8: `validate_order` rejects exactly when quantity ≤ 0, or the order's
symbol differs from the engine's, or the type is Limit/StopLoss/TakeProfit
with price absent or ≤ 0; it succeeds otherwise (in particular a Market order
never needs a price), and every rejection is a `ValidationError`.  The
function reads the engine immutably (`&self`) — in this embedding it does not
even return an engine, so it has no side effects by construction. -/
theorem validate_order_spec (e : MatchingEngine) (o : Order) :
    (validateOrder e o = Except.ok () ↔
      (0 < o.quantity ∧ o.trading_pair = e.symbol ∧
        (o.order_type = OrderType.market ∨ ∃ p, o.price = some p ∧ 0 < p))) ∧
    (∀ err, validateOrder e o = Except.error err →
      ∃ msg, err = FlowExError.validation msg) := by
  by_cases h1 : o.quantity ≤ 0
  · have hval : validateOrder e o =
        Except.error (FlowExError.validation "Order quantity must be positive") := by
      rw [validateOrder, if_pos h1]
    rw [hval]
    refine ⟨⟨fun hcontra => ?_, fun hrhs => ?_⟩, fun err herr => ?_⟩
    · cases hcontra
    · exact absurd h1 (not_le.mpr hrhs.1)
    · injection herr with herr
      exact ⟨_, herr.symm⟩
  · by_cases h2 : o.trading_pair = e.symbol
    · have hne2 : ¬ (o.trading_pair ≠ e.symbol) := not_not_intro h2
      cases hty : o.order_type with
      | market =>
        have hval : validateOrder e o = Except.ok () := by
          rw [validateOrder, if_neg h1, if_neg hne2]
          simp only [hty]
        rw [hval]
        refine ⟨⟨fun _ => ⟨not_le.mp h1, h2, Or.inl rfl⟩, fun _ => rfl⟩,
          fun err herr => ?_⟩
        cases herr
      | limit =>
        cases hpo : o.price with
        | none =>
          have hval : validateOrder e o =
              Except.error
                (FlowExError.validation "Limit order must have a positive price") := by
            rw [validateOrder, if_neg h1, if_neg hne2]
            simp only [hty, hpo]
          rw [hval]
          refine ⟨⟨fun hcontra => ?_, fun hrhs => ?_⟩, fun err herr => ?_⟩
          · cases hcontra
          · rcases hrhs.2.2 with hor | ⟨pv, hpv, -⟩
            · cases hor
            · cases hpv
          · injection herr with herr
            exact ⟨_, herr.symm⟩
        | some pv =>
          by_cases hple : pv ≤ 0
          · have hval : validateOrder e o =
                Except.error
                  (FlowExError.validation "Limit order must have a positive price") := by
              rw [validateOrder, if_neg h1, if_neg hne2]
              simp only [hty, hpo]
              rw [if_pos hple]
            rw [hval]
            refine ⟨⟨fun hcontra => ?_, fun hrhs => ?_⟩, fun err herr => ?_⟩
            · cases hcontra
            · rcases hrhs.2.2 with hor | ⟨pw, hpw, hpw0⟩
              · cases hor
              · injection hpw with hpw
                subst hpw
                exact absurd hple (not_le.mpr hpw0)
            · injection herr with herr
              exact ⟨_, herr.symm⟩
          · have hval : validateOrder e o = Except.ok () := by
              rw [validateOrder, if_neg h1, if_neg hne2]
              simp only [hty, hpo]
              rw [if_neg hple]
            rw [hval]
            refine ⟨⟨fun _ => ⟨not_le.mp h1, h2, Or.inr ⟨pv, rfl, not_le.mp hple⟩⟩,
              fun _ => rfl⟩, fun err herr => ?_⟩
            cases herr
      | stopLoss =>
        cases hpo : o.price with
        | none =>
          have hval : validateOrder e o =
              Except.error
                (FlowExError.validation
                  "Stop/Take profit order must have a positive price") := by
            rw [validateOrder, if_neg h1, if_neg hne2]
            simp only [hty, hpo]
          rw [hval]
          refine ⟨⟨fun hcontra => ?_, fun hrhs => ?_⟩, fun err herr => ?_⟩
          · cases hcontra
          · rcases hrhs.2.2 with hor | ⟨pv, hpv, -⟩
            · cases hor
            · cases hpv
          · injection herr with herr
            exact ⟨_, herr.symm⟩
        | some pv =>
          by_cases hple : pv ≤ 0
          · have hval : validateOrder e o =
                Except.error
                  (FlowExError.validation
                    "Stop/Take profit order must have a positive price") := by
              rw [validateOrder, if_neg h1, if_neg hne2]
              simp only [hty, hpo]
              rw [if_pos hple]
            rw [hval]
            refine ⟨⟨fun hcontra => ?_, fun hrhs => ?_⟩, fun err herr => ?_⟩
            · cases hcontra
            · rcases hrhs.2.2 with hor | ⟨pw, hpw, hpw0⟩
              · cases hor
              · injection hpw with hpw
                subst hpw
                exact absurd hple (not_le.mpr hpw0)
            · injection herr with herr
              exact ⟨_, herr.symm⟩
          · have hval : validateOrder e o = Except.ok () := by
              rw [validateOrder, if_neg h1, if_neg hne2]
              simp only [hty, hpo]
              rw [if_neg hple]
            rw [hval]
            refine ⟨⟨fun _ => ⟨not_le.mp h1, h2, Or.inr ⟨pv, rfl, not_le.mp hple⟩⟩,
              fun _ => rfl⟩, fun err herr => ?_⟩
            cases herr
      | takeProfit =>
        cases hpo : o.price with
        | none =>
          have hval : validateOrder e o =
              Except.error
                (FlowExError.validation
                  "Stop/Take profit order must have a positive price") := by
            rw [validateOrder, if_neg h1, if_neg hne2]
            simp only [hty, hpo]
          rw [hval]
          refine ⟨⟨fun hcontra => ?_, fun hrhs => ?_⟩, fun err herr => ?_⟩
          · cases hcontra
          · rcases hrhs.2.2 with hor | ⟨pv, hpv, -⟩
            · cases hor
            · cases hpv
          · injection herr with herr
            exact ⟨_, herr.symm⟩
        | some pv =>
          by_cases hple : pv ≤ 0
          · have hval : validateOrder e o =
                Except.error
                  (FlowExError.validation
                    "Stop/Take profit order must have a positive price") := by
              rw [validateOrder, if_neg h1, if_neg hne2]
              simp only [hty, hpo]
              rw [if_pos hple]
            rw [hval]
            refine ⟨⟨fun hcontra => ?_, fun hrhs => ?_⟩, fun err herr => ?_⟩
            · cases hcontra
            · rcases hrhs.2.2 with hor | ⟨pw, hpw, hpw0⟩
              · cases hor
              · injection hpw with hpw
                subst hpw
                exact absurd hple (not_le.mpr hpw0)
            · injection herr with herr
              exact ⟨_, herr.symm⟩
          · have hval : validateOrder e o = Except.ok () := by
              rw [validateOrder, if_neg h1, if_neg hne2]
              simp only [hty, hpo]
              rw [if_neg hple]
            rw [hval]
            refine ⟨⟨fun _ => ⟨not_le.mp h1, h2, Or.inr ⟨pv, rfl, not_le.mp hple⟩⟩,
              fun _ => rfl⟩, fun err herr => ?_⟩
            cases herr
    · have hval : validateOrder e o =
          Except.error (FlowExError.validation "Order symbol does not match engine") := by
        rw [validateOrder, if_neg h1, if_pos h2]
      rw [hval]
      refine ⟨⟨fun hcontra => ?_, fun hrhs => ?_⟩, fun err herr => ?_⟩
      · cases hcontra
      · exact absurd hrhs.2.1 h2
      · injection herr with herr
        exact ⟨_, herr.symm⟩

/-- Witness for C8: a priceless Market order of positive quantity passes
validation on a matching engine. -/
theorem validate_order_spec_witness :
    validateOrder (MatchingEngine.new "BTCUSDT")
        (testOrder 1 OrderSide.buy OrderType.market none 1) =
      Except.ok () :=
  (validate_order_spec (MatchingEngine.new "BTCUSDT")
        (testOrder 1 OrderSide.buy OrderType.market none 1)).1.mpr
    ⟨(by norm_num [testOrder]), rfl, Or.inl rfl⟩

/-- C10: for an incoming Buy whose limit price is at or above every resting
ask price, the limit sweep produces the same (execution price, quantity)
sequence and the same final engine (book sides, last trade price, total
volume) as the market sweep of a Market order of the same side and quantity
against the same state. -/
theorem limit_sweep_equals_market_sweep (e : MatchingEngine) (o : Order) (lp : ℚ)
    (hp : o.price = some lp) (hs : o.side = OrderSide.buy)
    (hall : ∀ p ∈ Book.keys e.sell_orders, p ≤ lp) :
    (executeLimitOrder e o).map
        (fun r => (r.1, r.2.2.map fun t => (t.price, t.quantity))) =
      Except.ok ((executeMarketOrder e (asMarket o)).1,
        (executeMarketOrder e (asMarket o)).2.2.map fun t => (t.price, t.quantity)) := by
  have hside' : (asMarket o).side = o.side := rfl
  have hq' : (asMarket o).quantity = o.quantity := rfl
  have hopp : oppositeBook e o.side = e.sell_orders := by rw [hs]; rfl
  have hcm : ∀ p ∈ Book.keys (oppositeBook e o.side), canMatch o.side lp p = true := by
    intro p hmem
    rw [hopp] at hmem
    rw [hs]
    simpa [canMatch] using hall p hmem
  have hloop :
      limitLoop e.symbol o.side lp (Book.keys (oppositeBook e o.side))
          (oppositeBook e o.side) o.quantity =
        marketLoop e.symbol o.side (Book.keys (oppositeBook e o.side))
          (oppositeBook e o.side) o.quantity :=
    limitLoop_eq_marketLoop e.symbol o.side lp _ _ _ hcm
  rw [executeLimitOrder, hp]
  simp only [Except.map]
  rw [executeMarketOrder, hside', hq', hloop]

/-- Witness for C10: one resting ask at 100 of quantity 1, incoming Buy limit
at 150 of quantity 2. -/
theorem limit_sweep_equals_market_sweep_witness :
    (executeLimitOrder
          { symbol := "BTCUSDT", buy_orders := [],
            sell_orders := [(100, [testOrder 1 OrderSide.sell OrderType.limit (some 100) 1])],
            last_trade_price := none, total_volume := 0 }
          (testOrder 2 OrderSide.buy OrderType.limit (some 150) 2)).map
        (fun r => (r.1, r.2.2.map fun t => (t.price, t.quantity))) =
      Except.ok
        ((executeMarketOrder
            { symbol := "BTCUSDT", buy_orders := [],
              sell_orders := [(100, [testOrder 1 OrderSide.sell OrderType.limit (some 100) 1])],
              last_trade_price := none, total_volume := 0 }
            (asMarket (testOrder 2 OrderSide.buy OrderType.limit (some 150) 2))).1,
          (executeMarketOrder
              { symbol := "BTCUSDT", buy_orders := [],
                sell_orders := [(100, [testOrder 1 OrderSide.sell OrderType.limit (some 100) 1])],
                last_trade_price := none, total_volume := 0 }
              (asMarket (testOrder 2 OrderSide.buy OrderType.limit (some 150) 2))).2.2.map
            fun t => (t.price, t.quantity)) :=
  limit_sweep_equals_market_sweep _ (testOrder 2 OrderSide.buy OrderType.limit (some 150) 2)
    150 rfl rfl (by simp [Book.keys]; norm_num)

/-- C1 (code bug): the claim's best-price-first order fails for an incoming
Sell.  Both sweeps iterate `opposite_orders.keys()` — ascending price order —
on the bid side too, so an incoming market Sell against bids at 90 and 100
trades at 90 first and at 100 second: its execution prices are increasing,
not non-increasing, and the lowest bid is consumed while the better bid 100
is still resting. -/
theorem market_sell_consumes_lowest_bid_first :
    (addOrder
        (addOrder
          (addOrder (MatchingEngine.new "BTCUSDT")
            (testOrder 1 OrderSide.buy OrderType.limit (some 90) 1)).fst
          (testOrder 2 OrderSide.buy OrderType.limit (some 100) 1)).fst
        (testOrder 3 OrderSide.sell OrderType.market none 2)).snd =
      Except.ok
        [mkTrade "BTCUSDT" OrderSide.sell 90 1, mkTrade "BTCUSDT" OrderSide.sell 100 1] ∧
    ¬ ((100 : ℚ) ≤ 90) := by
  constructor
  · norm_num +decide [addOrder, validateOrder, executeMarketOrder, executeLimitOrder, marketLoop,
    limitLoop, consumeQueue, addToOrderBook, testOrder, MatchingEngine.new,
    oppositeBook, setOppositeBook, applyTrades, finishTaker, Book.keys, Book.find?,
    Book.set, Book.erase, Book.insert, mkTrade, requeueFill, canMatch, cancelOrder,
    cancelScan, getBestBid, List.eraseP]
  · norm_num

/-- C2 (code bug): a priceless Market order whose quantity exceeds opposite
liquidity does fill what exists, but `add_order` then calls
`add_to_order_book` on the remainder, which fails on `price == None`: the call
returns `Err(Trading(..))` instead of the generated trades (the fills are
kept — total_volume is 1 — but the trade list is lost). -/
theorem market_remainder_loses_trades :
    (addOrder
          (addOrder (MatchingEngine.new "BTCUSDT")
            (testOrder 1 OrderSide.sell OrderType.limit (some 100) 1)).fst
          (testOrder 2 OrderSide.buy OrderType.market none 2)).snd =
        Except.error
          (FlowExError.trading "Order must have a price to be added to order book") ∧
    (addOrder
          (addOrder (MatchingEngine.new "BTCUSDT")
            (testOrder 1 OrderSide.sell OrderType.limit (some 100) 1)).fst
          (testOrder 2 OrderSide.buy OrderType.market none 2)).fst.total_volume = 1 := by
  constructor
  · norm_num +decide [addOrder, validateOrder, executeMarketOrder, executeLimitOrder, marketLoop,
    limitLoop, consumeQueue, addToOrderBook, testOrder, MatchingEngine.new,
    oppositeBook, setOppositeBook, applyTrades, finishTaker, Book.keys, Book.find?,
    Book.set, Book.erase, Book.insert, mkTrade, requeueFill, canMatch, cancelOrder,
    cancelScan, getBestBid, List.eraseP]
  · norm_num +decide [addOrder, validateOrder, executeMarketOrder, executeLimitOrder, marketLoop,
    limitLoop, consumeQueue, addToOrderBook, testOrder, MatchingEngine.new,
    oppositeBook, setOppositeBook, applyTrades, finishTaker, Book.keys, Book.find?,
    Book.set, Book.erase, Book.insert, mkTrade, requeueFill, canMatch, cancelOrder,
    cancelScan, getBestBid, List.eraseP]

/-- C3 (code bug): on the market-remainder path `add_order` returns a
`Trading` error, not a `ValidationError`, and the engine state is mutated
before the error: the resting ask (3 units at 200) is consumed and
total_volume moves from 0 to 3. -/
theorem add_order_error_after_mutation :
    (addOrder
          (addOrder (MatchingEngine.new "BTCUSDT")
            (testOrder 1 OrderSide.sell OrderType.limit (some 200) 3)).fst
          (testOrder 2 OrderSide.buy OrderType.market none 5)).snd =
        Except.error
          (FlowExError.trading "Order must have a price to be added to order book") ∧
    (∀ msg, FlowExError.trading "Order must have a price to be added to order book" ≠
      FlowExError.validation msg) ∧
    (addOrder
          (addOrder (MatchingEngine.new "BTCUSDT")
            (testOrder 1 OrderSide.sell OrderType.limit (some 200) 3)).fst
          (testOrder 2 OrderSide.buy OrderType.market none 5)).fst.total_volume = 3 ∧
    ((addOrder (MatchingEngine.new "BTCUSDT")
        (testOrder 1 OrderSide.sell OrderType.limit (some 200) 3)).fst.total_volume = 0 ∧
      (addOrder (MatchingEngine.new "BTCUSDT")
          (testOrder 1 OrderSide.sell OrderType.limit (some 200) 3)).fst.sell_orders ≠
        (addOrder
            (addOrder (MatchingEngine.new "BTCUSDT")
              (testOrder 1 OrderSide.sell OrderType.limit (some 200) 3)).fst
            (testOrder 2 OrderSide.buy OrderType.market none 5)).fst.sell_orders) := by
  refine ⟨?_, ?_, ?_, ?_, ?_⟩
  · norm_num +decide [addOrder, validateOrder, executeMarketOrder, executeLimitOrder, marketLoop,
    limitLoop, consumeQueue, addToOrderBook, testOrder, MatchingEngine.new,
    oppositeBook, setOppositeBook, applyTrades, finishTaker, Book.keys, Book.find?,
    Book.set, Book.erase, Book.insert, mkTrade, requeueFill, canMatch, cancelOrder,
    cancelScan, getBestBid, List.eraseP]
  · intro msg h
    cases h
  · norm_num +decide [addOrder, validateOrder, executeMarketOrder, executeLimitOrder, marketLoop,
    limitLoop, consumeQueue, addToOrderBook, testOrder, MatchingEngine.new,
    oppositeBook, setOppositeBook, applyTrades, finishTaker, Book.keys, Book.find?,
    Book.set, Book.erase, Book.insert, mkTrade, requeueFill, canMatch, cancelOrder,
    cancelScan, getBestBid, List.eraseP]
  · norm_num +decide [addOrder, validateOrder, executeMarketOrder, executeLimitOrder, marketLoop,
    limitLoop, consumeQueue, addToOrderBook, testOrder, MatchingEngine.new,
    oppositeBook, setOppositeBook, applyTrades, finishTaker, Book.keys, Book.find?,
    Book.set, Book.erase, Book.insert, mkTrade, requeueFill, canMatch, cancelOrder,
    cancelScan, getBestBid, List.eraseP]
  · norm_num +decide [addOrder, validateOrder, executeMarketOrder, executeLimitOrder, marketLoop,
    limitLoop, consumeQueue, addToOrderBook, testOrder, MatchingEngine.new,
    oppositeBook, setOppositeBook, applyTrades, finishTaker, Book.keys, Book.find?,
    Book.set, Book.erase, Book.insert, mkTrade, requeueFill, canMatch, cancelOrder,
    cancelScan, getBestBid, List.eraseP]

/-- C6 (code bug): after the market-remainder error path, cumulative
total_volume (2) exceeds the summed quantities of all trades ever returned to
the caller (the first call returned `Ok([])`, the second returned an error,
so the sum is 0). -/
theorem total_volume_counts_unreturned_trades :
    (addOrder (MatchingEngine.new "BTCUSDT")
        (testOrder 1 OrderSide.sell OrderType.limit (some 70) 2)).snd =
      Except.ok [] ∧
    (addOrder
          (addOrder (MatchingEngine.new "BTCUSDT")
            (testOrder 1 OrderSide.sell OrderType.limit (some 70) 2)).fst
          (testOrder 2 OrderSide.buy OrderType.market none 6)).snd =
        Except.error
          (FlowExError.trading "Order must have a price to be added to order book") ∧
    (addOrder
          (addOrder (MatchingEngine.new "BTCUSDT")
            (testOrder 1 OrderSide.sell OrderType.limit (some 70) 2)).fst
          (testOrder 2 OrderSide.buy OrderType.market none 6)).fst.total_volume = 2 ∧
    ((2 : ℚ) ≠ 0) := by
  refine ⟨?_, ?_, ?_, ?_⟩
  · norm_num +decide [addOrder, validateOrder, executeMarketOrder, executeLimitOrder, marketLoop,
    limitLoop, consumeQueue, addToOrderBook, testOrder, MatchingEngine.new,
    oppositeBook, setOppositeBook, applyTrades, finishTaker, Book.keys, Book.find?,
    Book.set, Book.erase, Book.insert, mkTrade, requeueFill, canMatch, cancelOrder,
    cancelScan, getBestBid, List.eraseP]
  · norm_num +decide [addOrder, validateOrder, executeMarketOrder, executeLimitOrder, marketLoop,
    limitLoop, consumeQueue, addToOrderBook, testOrder, MatchingEngine.new,
    oppositeBook, setOppositeBook, applyTrades, finishTaker, Book.keys, Book.find?,
    Book.set, Book.erase, Book.insert, mkTrade, requeueFill, canMatch, cancelOrder,
    cancelScan, getBestBid, List.eraseP]
  · norm_num +decide [addOrder, validateOrder, executeMarketOrder, executeLimitOrder, marketLoop,
    limitLoop, consumeQueue, addToOrderBook, testOrder, MatchingEngine.new,
    oppositeBook, setOppositeBook, applyTrades, finishTaker, Book.keys, Book.find?,
    Book.set, Book.erase, Book.insert, mkTrade, requeueFill, canMatch, cancelOrder,
    cancelScan, getBestBid, List.eraseP]
  · norm_num

/-- C9 (code bug): `cancel_order` removes the order but never removes the
emptied level, so the book keeps a price level with an empty queue — zero
aggregate quantity — and `get_best_bid` still reports that price. -/
theorem cancel_leaves_empty_level :
    (cancelOrder
        (addOrder (MatchingEngine.new "BTCUSDT")
          (testOrder 7 OrderSide.buy OrderType.limit (some 59) 1)).fst 7).snd = true ∧
    (cancelOrder
        (addOrder (MatchingEngine.new "BTCUSDT")
          (testOrder 7 OrderSide.buy OrderType.limit (some 59) 1)).fst 7).fst.buy_orders =
      [((59 : ℚ), ([] : List Order))] ∧
    getBestBid
        (cancelOrder
          (addOrder (MatchingEngine.new "BTCUSDT")
            (testOrder 7 OrderSide.buy OrderType.limit (some 59) 1)).fst 7).fst =
      some 59 := by
  refine ⟨?_, ?_, ?_⟩
  · norm_num +decide [addOrder, validateOrder, executeMarketOrder, executeLimitOrder, marketLoop,
    limitLoop, consumeQueue, addToOrderBook, testOrder, MatchingEngine.new,
    oppositeBook, setOppositeBook, applyTrades, finishTaker, Book.keys, Book.find?,
    Book.set, Book.erase, Book.insert, mkTrade, requeueFill, canMatch, cancelOrder,
    cancelScan, getBestBid, List.eraseP]
  · norm_num +decide [addOrder, validateOrder, executeMarketOrder, executeLimitOrder, marketLoop,
    limitLoop, consumeQueue, addToOrderBook, testOrder, MatchingEngine.new,
    oppositeBook, setOppositeBook, applyTrades, finishTaker, Book.keys, Book.find?,
    Book.set, Book.erase, Book.insert, mkTrade, requeueFill, canMatch, cancelOrder,
    cancelScan, getBestBid, List.eraseP]
  · norm_num +decide [addOrder, validateOrder, executeMarketOrder, executeLimitOrder, marketLoop,
    limitLoop, consumeQueue, addToOrderBook, testOrder, MatchingEngine.new,
    oppositeBook, setOppositeBook, applyTrades, finishTaker, Book.keys, Book.find?,
    Book.set, Book.erase, Book.insert, mkTrade, requeueFill, canMatch, cancelOrder,
    cancelScan, getBestBid, List.eraseP]

end FlowEx
